import Mathlib

/-!
Verification of the KCF industry-challenge hardware-sample service.

Shallow embedding of the two Go source files:

* `api/hardware/hardware.go` — the sample store, ingestion writes
  (`PopulateSamples` / `SetValueByDataFile`), and `InterpolateSample`.
* `api/handler.go` — the `Handle` tabulation loop for
  `/api/tabulated_hardware`.

Timestamps are modelled as `Int` (milliseconds since epoch, as produced by
`UnixMilli`); `float64` arithmetic is idealised as exact arithmetic: sample
values live in `ℚ`, and the final raised-cosine blend is stated over `ℝ`.
The Go `int64(...)` conversion of a non-negative float quotient truncates
toward zero, which coincides with `Int` T-division on non-negative operands,
the only case reachable for a key-sorted timestamp list.
-/

namespace KCF

/-- The nine channels of `Sample` carrying a `file:"..."` tag
(the `Time` field has no tag and is excluded from the per-field loops). -/
inductive Channel
  | temperature
  | peakVelocityX
  | rmsVelocityX
  | peakAccelerationX
  | rmsAccelerationX
  | peakVelocityY
  | rmsVelocityY
  | peakAccelerationY
  | rmsAccelerationY
deriving DecidableEq

/-- The field-iteration order of `sampleType.NumField()` over the tagged fields. -/
def allChannels : List Channel :=
  [.temperature, .peakVelocityX, .rmsVelocityX, .peakAccelerationX, .rmsAccelerationX,
   .peakVelocityY, .rmsVelocityY, .peakAccelerationY, .rmsAccelerationY]

/-- A stored `Sample`'s channel fields: each `*float64` field is either
`nil` (`none`) or points to a concrete value.  The `Time` field always equals
the store key, so it is not repeated here. -/
abbrev SData := Channel → Option ℚ

/-- Default used for out-of-range indexing; the theorems' hypotheses keep all
indices in range wherever the Go code's slice indexing must not panic. -/
def dfltSample : Int × SData := (0, fun _ => none)

/-- The key-sorted timestamp slice `timestamps` built in `InterpolateSample`.
A device's samples are modelled as the association list obtained from the Go
map `hardware[hardwareId]` after the `sort.Slice` call, so theorems carry a
`List.Pairwise (· < ·)` hypothesis mirroring the map's distinct keys. -/
def tsOf (samples : List (Int × SData)) : List Int :=
  samples.map Prod.fst

/-- The `sumOfIntervals` loop: sum of consecutive timestamp gaps. -/
def sumGaps : List Int → Int
  | [] => 0
  | [_] => 0
  | a :: b :: rest => (b - a) + sumGaps (b :: rest)

/-- `averageInterval := int64(sumOfIntervals / float64(sampleCount))`. -/
def averageInterval (samples : List (Int × SData)) : Int :=
  sumGaps (tsOf samples) / (samples.length : Int)

/-- The density-bound rejection test of `InterpolateSample` (hardware.go:151):
`atTimestamp < timestamps[0]+averageInterval || atTimestamp > timestamps[sampleCount-1]-averageInterval`. -/
def densityReject (samples : List (Int × SData)) (q : Int) : Bool :=
  decide (q < (tsOf samples).getD 0 0 + averageInterval samples) ||
  decide ((tsOf samples).getD (samples.length - 1) 0 - averageInterval samples < q)

/-- `sort.Search(sampleCount, func(index) { return timestamps[index] >= atTimestamp })`:
for a sorted slice this is the first index whose timestamp is `≥ q`
(`length` when there is none). -/
def lowerBound (ts : List Int) (q : Int) : Nat :=
  ts.findIdx (fun t => decide (q ≤ t))

/-- The backward per-channel scan (hardware.go:162-174).  The loop examines
index `i`, decrements, and breaks once the examined index had a concrete
reading or the decremented index reached `0`; the result is the last examined
index.  Consequently index `0` is examined only when the anchor itself is `0`. -/
def leftScanIdx (conc : Nat → Bool) : Nat → Nat
  | 0 => 0
  | i + 1 => if conc (i + 1) || decide (i + 1 ≤ 1) then i + 1 else leftScanIdx conc i

/-- Structural worker for the forward scan; the first argument is the fuel
`n - i`, which bounds the remaining iterations exactly (when it is `0` we
already have `n ≤ i`, so the Go loop would also break at `i`). -/
def rightScanAux (conc : Nat → Bool) (n : Nat) : Nat → Nat → Nat
  | 0, i => i
  | d + 1, i => if conc i || decide (n ≤ i + 2) then i else rightScanAux conc n d (i + 1)

/-- The forward per-channel scan (hardware.go:176-188).  The loop examines
index `i`, increments, and breaks once the examined index had a concrete
reading or the incremented index reached `sampleCount-1`; the result is the
last examined index, so index `n-1` is examined only when the anchor is `n-1`. -/
def rightScanIdx (conc : Nat → Bool) (n i : Nat) : Nat :=
  rightScanAux conc n (n - i) i

/-- The data selected for one channel before blending: the timestamps and
concrete values of the samples on which the two scans stopped. -/
structure Pick where
  lt : Int
  rt : Int
  lv : ℚ
  rv : ℚ
deriving DecidableEq

/-- The per-channel body of the field loop (hardware.go:160-196) up to the
blend: run both scans from the anchor and dereference the two `*float64`
fields.  A `none` result models the run-time panic of
`.Elem().Float()` on a `nil` pointer. -/
def channelPick? (samples : List (Int × SData)) (q : Int) (c : Channel) : Option Pick :=
  let n := samples.length
  let anchor := lowerBound (tsOf samples) q
  let conc := fun i => ((samples.getD i dfltSample).2 c).isSome
  let left := samples.getD (leftScanIdx conc anchor) dfltSample
  let right := samples.getD (rightScanIdx conc n anchor) dfltSample
  match left.2 c, right.2 c with
  | some lv, some rv => some ⟨left.1, right.1, lv, rv⟩
  | _, _ => none

/-- The observable outcome of `InterpolateSample`. -/
inductive Outcome
  | unknownDevice
  | insufficientDensity
  | panic
  | ok
deriving DecidableEq

/-- `InterpolateSample(hardwareId, at)`, with the device's (key-sorted)
samples passed as `dev` (`none` models `HasSamples(hardwareId) == false`).
`panic` is the nil-pointer dereference reached when some channel's scans both
stop on samples lacking a concrete reading for it. -/
def interpOutcome (dev : Option (List (Int × SData))) (q : Int) : Outcome :=
  match dev with
  | none => .unknownDevice
  | some samples =>
    if densityReject samples q then .insufficientDensity
    else if allChannels.all (fun c => (channelPick? samples q c).isSome) then .ok
    else .panic

/-- `0.5 * (1.0 - math.Cos(math.Pi*timestampInterval))`. -/
noncomputable def blendWeight (p : ℝ) : ℝ :=
  0.5 * (1 - Real.cos (Real.pi * p))

/-- The value stored into the interpolated sample for channel `c`
(hardware.go:190-195), with `timestampInterval = at / (leftTimestamp + rightTimestamp)`.
`0` stands for the unreachable case in which the pick panicked. -/
noncomputable def interpValue (samples : List (Int × SData)) (q : Int) (c : Channel) : ℝ :=
  match channelPick? samples q c with
  | some p =>
      (p.lv : ℝ) * (1 - blendWeight ((q : ℝ) / ((p.lt : ℝ) + (p.rt : ℝ)))) +
      (p.rv : ℝ) * blendWeight ((q : ℝ) / ((p.lt : ℝ) + (p.rt : ℝ)))
  | none => 0

/-- The observable outcome of `Handle` on `/api/tabulated_hardware`. -/
inductive HandleResult
  | serverError
  | panicDivZero
  | panicNil
  | ok (entries : List Int)
  | outOfFuel
deriving DecidableEq

/-- The tabulation loop of `Handle` (handler.go:41-48).  Faithful to the Go
source: the post statement computes `To.Sub(From)...Nanoseconds()/int64(Count)`
(an integer division that panics when `Count == 0`) but discards the result of
`timestamp.Add(...)`, so `timestamp` never advances.  `fuel` bounds the
iterations the model is willing to run; `outOfFuel` for every fuel shows the
Go loop never finishes. -/
def tabulateLoop (dev : Option (List (Int × SData))) (fromT toT count timestamp : Int)
    (acc : List Int) : Nat → HandleResult
  | 0 => .outOfFuel
  | fuel + 1 =>
    if timestamp < toT then
      match interpOutcome dev timestamp with
      | .ok =>
          if count = 0 then .panicDivZero
          else tabulateLoop dev fromT toT count timestamp (acc ++ [timestamp]) fuel
      | .panic => .panicNil
      | _ => .serverError
    else .ok acc

/-- `Handle` on a POST `/api/tabulated_hardware` request after JSON decoding:
the `HasSamples` guard followed by the tabulation loop started at `From`.
Entries are keyed by the query timestamp (the Go label is its rendering in a
fixed format). -/
def handleTabulated (dev : Option (List (Int × SData))) (fromT toT count : Int)
    (fuel : Nat) : HandleResult :=
  match dev with
  | none => .serverError
  | some _ => tabulateLoop dev fromT toT count fromT [] fuel

/-- Modelled from the spec: the corrected RangeTabulator semantics of §4.3,
which the repository's code does not implement (its loop never advances the
timestamp).  `step = (to - from) / count` and the query points are
`from, from+step, …`, exactly `count` iterations; the whole tabulation fails
if any interpolation fails. -/
def tabulateSpec (dev : Option (List (Int × SData))) (fromT toT : Int) (count : Nat) :
    Option (List Int) :=
  let step := (toT - fromT) / (count : Int)
  let pts := (List.range count).map (fun k => fromT + (k : Int) * step)
  if pts.all (fun t => decide (interpOutcome dev t = .ok)) then some pts else none

/-- One CSV row routed by `PopulateSamples`: the device is the parent
directory name, the channel the one whose `file:` tag matches the file name,
and `(t, v)` the parsed `(timestamp, value)` columns. -/
structure Row where
  dev : String
  t : Int
  c : Channel
  v : ℚ

/-- The ingestion store `hardware : map[string]map[int64]*Sample`, flattened
to its lookup function.  A `some` at `(d, t)` is a created `*Sample` (whose
`Time` field always equals `t`); channels never written stay `nil`. -/
def emptyIngStore : String → Int → Option SData := fun _ _ => none

/-- One iteration of the row loop in `PopulateSamples` (hardware.go:99-114):
create the device map and the `*Sample` on demand, then set the matched
channel field, preserving the other channels (last write wins on duplicates). -/
def applyRow (st : String → Int → Option SData) (r : Row) : String → Int → Option SData :=
  fun d t =>
    if d = r.dev ∧ t = r.t then
      some (fun c => if c = r.c then some r.v else ((st r.dev r.t).getD (fun _ => none)) c)
    else st d t

/-- Ingesting a sequence of rows (all files of the walk, concatenated in
walk order). -/
def populateRows (rows : List Row) : String → Int → Option SData :=
  rows.foldl applyRow emptyIngStore

/-- A fully populated sample holding `v` on every channel. -/
def constSample (v : ℚ) : SData := fun _ => some v

/-- The spec's example device: samples at `t = 0, 1000, 2000, 3000, 4000` ms,
every channel concrete. -/
def fan1Samples : List (Int × SData) :=
  [(0, constSample 20), (1000, constSample 21), (2000, constSample 22),
   (3000, constSample 23), (4000, constSample 24)]

/-- A sample concrete on every channel except `temperature`. -/
def noTempSample (v : ℚ) : SData :=
  fun c => if c = .temperature then none else some v

/-- A device whose `temperature` channel is absent from every sample. -/
def fan2Samples : List (Int × SData) :=
  [(0, noTempSample 1), (1000, noTempSample 2), (2000, noTempSample 3),
   (3000, noTempSample 4), (4000, noTempSample 5)]

/-- The backward-scan behaviour asserted by the spec sentence of claim C5,
written from the spec's words (not from the code): the scan either yields the
nearest concrete index at or before the anchor, or yields index `0` when the
start of the array is reached without finding one. -/
def leftScanClaimOK (conc : Nat → Bool) (anchor r : Nat) : Prop :=
  (r ≤ anchor ∧ conc r = true ∧ ∀ j ∈ List.range (anchor + 1), r < j → conc j = false)
  ∨ (r = 0 ∧ ∀ j ∈ List.range (anchor + 1), conc j = false)

/-! ## Helper lemmas -/

theorem tsOf_getD (samples : List (Int × SData)) :
    ∀ k, (tsOf samples).getD k 0 = (samples.getD k dfltSample).1 := by
  induction samples with
  | nil => intro k; rfl
  | cons p l ih =>
      intro k
      cases k with
      | zero => rfl
      | succ j => simpa [tsOf] using ih j

theorem getD_mem_of_lt (l : List Int) : ∀ j, j < l.length → l.getD j 0 ∈ l := by
  induction l with
  | nil => intro j h; simp at h
  | cons a t ih =>
      intro j h
      cases j with
      | zero => simp
      | succ i =>
          have : i < t.length := by simpa using h
          simpa using Or.inr (ih i this)

theorem sumGaps_cons (a : Int) (l : List Int) :
    sumGaps (a :: l) = (a :: l).getD l.length 0 - a := by
  induction l generalizing a with
  | nil => simp [sumGaps]
  | cons b m ih =>
      have := ih b
      simp only [sumGaps, List.length_cons, List.getD_cons_succ] at *
      omega

theorem lowerBound_self (ts : List Int) (hsort : List.Pairwise (· < ·) ts) :
    ∀ k, k < ts.length → lowerBound ts (ts.getD k 0) = k := by
  induction ts with
  | nil => intro k h; simp at h
  | cons a l ih =>
      intro k hk
      cases k with
      | zero =>
          unfold lowerBound
          rw [List.getD_cons_zero, List.findIdx_cons]
          simp
      | succ j =>
          have hj : j < l.length := by simpa using hk
          have hmem : l.getD j 0 ∈ l := getD_mem_of_lt l j hj
          have halt : a < l.getD j 0 := (List.pairwise_cons.mp hsort).1 _ hmem
          unfold lowerBound
          rw [List.getD_cons_succ, List.findIdx_cons]
          have hfa : decide (l.getD j 0 ≤ a) = false := by
            rw [decide_eq_false_iff_not]
            omega
          simp only [hfa, Bool.cond_false]
          have ihj := ih (List.pairwise_cons.mp hsort).2 j hj
          unfold lowerBound at ihj
          rw [ihj]

theorem leftScanIdx_of_conc (conc : Nat → Bool) (i : Nat) (h : conc i = true) :
    leftScanIdx conc i = i := by
  cases i with
  | zero => rfl
  | succ j => simp [leftScanIdx, h]

theorem rightScanIdx_of_conc (conc : Nat → Bool) (n i : Nat) (h : conc i = true) :
    rightScanIdx conc n i = i := by
  unfold rightScanIdx
  cases hd : n - i with
  | zero => rfl
  | succ d => simp [rightScanAux, h]

theorem getD_snd_none (samples : List (Int × SData)) (c : Channel)
    (h : ∀ p ∈ samples, p.2 c = none) :
    ∀ i, ((samples.getD i dfltSample).2 c) = none := by
  induction samples with
  | nil => intro i; cases i <;> rfl
  | cons p l ih =>
      intro i
      cases i with
      | zero => exact h p (by simp)
      | succ j =>
          simpa using ih (fun q hq => h q (by simp [hq])) j

theorem channelPick?_none_of_all_none (samples : List (Int × SData)) (q : Int) (c : Channel)
    (h : ∀ p ∈ samples, p.2 c = none) : channelPick? samples q c = none := by
  unfold channelPick?
  have hnone := getD_snd_none samples c h
  simp only [hnone]

theorem mem_allChannels (c : Channel) : c ∈ allChannels := by
  cases c <;> simp [allChannels]

/-! ## Claim theorems -/

/-- C3: for a device in the store with sorted distinct timestamps,
`InterpolateSample` fails with `InsufficientDensity` exactly when the query
timestamp lies outside `[t0 + avg, t(n-1) - avg]`, where
`avg = (t(n-1) - t0) / n` also equals the code's sum of consecutive gaps
divided by the sample count. -/
theorem density_bound_iff (samples : List (Int × SData)) (q : Int)
    (hne : samples ≠ [])
    (hsort : List.Pairwise (· < ·) (tsOf samples)) :
    sumGaps (tsOf samples) =
      (tsOf samples).getD (samples.length - 1) 0 - (tsOf samples).getD 0 0 ∧
    (interpOutcome (some samples) q = .insufficientDensity ↔
      (q < (tsOf samples).getD 0 0 +
          ((tsOf samples).getD (samples.length - 1) 0 - (tsOf samples).getD 0 0) /
            (samples.length : Int) ∨
       (tsOf samples).getD (samples.length - 1) 0 -
          ((tsOf samples).getD (samples.length - 1) 0 - (tsOf samples).getD 0 0) /
            (samples.length : Int) < q)) := by
  obtain ⟨p, l, rfl⟩ : ∃ p l, samples = p :: l := by
    cases samples with
    | nil => exact absurd rfl hne
    | cons p l => exact ⟨p, l, rfl⟩
  have hts : tsOf (p :: l) = p.1 :: tsOf l := rfl
  have hlen : (tsOf l).length = l.length := by simp [tsOf]
  have htele : sumGaps (tsOf (p :: l)) =
      (tsOf (p :: l)).getD ((p :: l).length - 1) 0 - (tsOf (p :: l)).getD 0 0 := by
    rw [hts, sumGaps_cons]
    simp [hlen]
  refine ⟨htele, ?_⟩
  have havg : averageInterval (p :: l) =
      ((tsOf (p :: l)).getD ((p :: l).length - 1) 0 - (tsOf (p :: l)).getD 0 0) /
        ((p :: l).length : Int) := by
    unfold averageInterval
    rw [htele]
  simp only [interpOutcome]
  by_cases hd : densityReject (p :: l) q
  · rw [if_pos hd]
    unfold densityReject at hd
    rw [havg] at hd
    simp only [Bool.or_eq_true, decide_eq_true_eq] at hd
    simpa using hd
  · rw [if_neg hd]
    unfold densityReject at hd
    rw [havg] at hd
    simp only [Bool.or_eq_true, decide_eq_true_eq, not_or] at hd
    have hout : ¬ (q < (tsOf (p :: l)).getD 0 0 +
        ((tsOf (p :: l)).getD ((p :: l).length - 1) 0 - (tsOf (p :: l)).getD 0 0) /
          ((p :: l).length : Int) ∨
        (tsOf (p :: l)).getD ((p :: l).length - 1) 0 -
          ((tsOf (p :: l)).getD ((p :: l).length - 1) 0 - (tsOf (p :: l)).getD 0 0) /
            ((p :: l).length : Int) < q) := by
      rintro (h1 | h2)
      · exact hd.1 h1
      · exact hd.2 h2
    split
    · exact iff_of_false (by decide) hout
    · exact iff_of_false (by decide) hout

/-- C3 witness: the spec's example device has samples at
`t = 0, 1000, 2000, 3000, 4000`, so `avg = 800` and querying `t = 700`
fails with `InsufficientDensity`. -/
theorem density_bound_iff_witness :
    interpOutcome (some fan1Samples) 700 = .insufficientDensity :=
  (density_bound_iff fan1Samples 700 (by simp [fan1Samples]) (by decide)).2.mpr
    (by decide)

/-- C4 counterexample: a device with exactly one stored sample, queried
exactly at the stored timestamp, is NOT rejected by the density-bound check
(the average interval is `0`, the bounds collapse to the stored timestamp,
and interpolation proceeds all the way to a result). -/
theorem one_sample_at_stored_time_not_rejected :
    interpOutcome (some [((1000 : Int), constSample 5)]) 1000 = .ok ∧
    Outcome.ok ≠ Outcome.insufficientDensity := by
  exact ⟨by decide, by decide⟩

/-- C4 amended: with exactly one stored sample, every query timestamp other
than the stored one is rejected by the density-bound check; a query exactly
at the stored timestamp passes the check and proceeds to interpolation. -/
theorem one_sample_density_rejects_other_times (t0 : Int) (s : SData) (q : Int)
    (h : q ≠ t0) :
    interpOutcome (some [(t0, s)]) q = .insufficientDensity := by
  have hd : densityReject [(t0, s)] q = true := by
    simp only [densityReject, averageInterval, tsOf, sumGaps, List.map_cons, List.map_nil,
      List.length_cons, List.length_nil, Nat.add_sub_cancel, List.getD_cons_zero, Nat.cast_one,
      Bool.or_eq_true, decide_eq_true_eq]
    omega
  simp only [interpOutcome, if_pos hd]

/-- C4 amendment witness at a concrete input. -/
theorem one_sample_density_rejects_witness :
    interpOutcome (some [((1000 : Int), constSample 5)]) 999 = .insufficientDensity :=
  one_sample_density_rejects_other_times 1000 (constSample 5) 999 (by decide)

/-- C9: if every stored sample of a device lacks a concrete reading for some
channel, then any query passing the density-bound check reaches the
`reflect` dereference of that channel's `nil` pointer and panics, instead of
returning a `ChannelUnavailable` (or any) error value. -/
theorem all_absent_channel_panics (samples : List (Int × SData)) (c : Channel) (q : Int)
    (hall : ∀ p ∈ samples, p.2 c = none)
    (hdens : densityReject samples q = false) :
    interpOutcome (some samples) q = .panic := by
  have hpick : channelPick? samples q c = none :=
    channelPick?_none_of_all_none samples q c hall
  have hnall : allChannels.all (fun d => (channelPick? samples q d).isSome) = false := by
    apply List.all_eq_false.mpr
    exact ⟨c, mem_allChannels c, by simp [hpick]⟩
  simp only [interpOutcome, hdens, hnall]
  simp

/-- C9 witness: a device whose `temperature` channel is absent everywhere
panics on an in-density query. -/
theorem all_absent_channel_panics_witness :
    interpOutcome (some fan2Samples) 2000 = .panic :=
  all_absent_channel_panics fan2Samples .temperature 2000 (by decide) (by decide)

theorem rightScanIdx_unfold (conc : Nat → Bool) (n i : Nat) :
    rightScanIdx conc n i =
      if (conc i || decide (n ≤ i + 2)) = true then i else rightScanIdx conc n (i + 1) := by
  unfold rightScanIdx
  rcases hni : n - i with _ | d
  · have h2 : decide (n ≤ i + 2) = true := by
      rw [decide_eq_true_eq]
      omega
    simp [rightScanAux, h2]
  · show rightScanAux conc n (d + 1) i = _
    by_cases hc : (conc i || decide (n ≤ i + 2)) = true
    · simp [rightScanAux, hc]
    · have hc' : (conc i || decide (n ≤ i + 2)) = false := by simpa using hc
      have hlt : i + 2 < n := by
        have h2 := (Bool.or_eq_false_iff.mp hc').2
        rw [decide_eq_false_iff_not] at h2
        omega
      have hd : n - (i + 1) = d := by omega
      simp [rightScanAux, hc', hd]

theorem leftScanIdx_char (conc : Nat → Bool) :
    ∀ anchor, 1 ≤ anchor →
      (1 ≤ leftScanIdx conc anchor ∧ leftScanIdx conc anchor ≤ anchor) ∧
      ((conc (leftScanIdx conc anchor) = true ∧
          ∀ j, leftScanIdx conc anchor < j → j ≤ anchor → conc j = false)
        ∨ (leftScanIdx conc anchor = 1 ∧ ∀ j, 1 ≤ j → j ≤ anchor → conc j = false)) := by
  intro anchor
  induction anchor with
  | zero => intro h; omega
  | succ a ih =>
      intro _
      by_cases hc : conc (a + 1) = true
      · have hr : leftScanIdx conc (a + 1) = a + 1 := by simp [leftScanIdx, hc]
        rw [hr]
        refine ⟨⟨by omega, le_refl _⟩, Or.inl ⟨hc, ?_⟩⟩
        intro j h1 h2
        omega
      · have hcf : conc (a + 1) = false := by simpa using hc
        by_cases ha : a = 0
        · subst ha
          have hr : leftScanIdx conc 1 = 1 := by simp [leftScanIdx]
          rw [hr]
          refine ⟨⟨le_refl _, le_refl _⟩, Or.inr ⟨rfl, ?_⟩⟩
          intro j h1 h2
          have : j = 1 := by omega
          subst this
          exact hcf
        · have ha1 : 1 ≤ a := by omega
          have hr : leftScanIdx conc (a + 1) = leftScanIdx conc a := by
            have h2 : decide (a + 1 ≤ 1) = false := by
              rw [decide_eq_false_iff_not]
              omega
            show (if (conc (a + 1) || decide (a + 1 ≤ 1)) = true
                then a + 1 else leftScanIdx conc a) = leftScanIdx conc a
            rw [hcf, h2]
            simp
          rw [hr]
          obtain ⟨⟨hb1, hb2⟩, hdis⟩ := ih ha1
          refine ⟨⟨hb1, by omega⟩, ?_⟩
          have hext : ∀ j, j ≤ a + 1 → j ≤ a ∨ j = a + 1 := by omega
          rcases hdis with ⟨hcr, hmax⟩ | ⟨h1, hnone⟩
          · refine Or.inl ⟨hcr, ?_⟩
            intro j hj1 hj2
            rcases hext j hj2 with hja | hje
            · exact hmax j hj1 hja
            · rw [hje]; exact hcf
          · refine Or.inr ⟨h1, ?_⟩
            intro j hj1 hj2
            rcases hext j hj2 with hja | hje
            · exact hnone j hj1 hja
            · rw [hje]; exact hcf

theorem rightScanIdx_char (conc : Nat → Bool) (n : Nat) :
    ∀ d i, i + 2 + d = n →
      (i ≤ rightScanIdx conc n i ∧ rightScanIdx conc n i + 2 ≤ n) ∧
      ((conc (rightScanIdx conc n i) = true ∧
          ∀ j, i ≤ j → j < rightScanIdx conc n i → conc j = false)
        ∨ (rightScanIdx conc n i + 2 = n ∧ ∀ j, i ≤ j → j + 2 ≤ n → conc j = false)) := by
  intro d
  induction d with
  | zero =>
      intro i hi
      have h2 : decide (n ≤ i + 2) = true := by
        rw [decide_eq_true_eq]
        omega
      have hr : rightScanIdx conc n i = i := by
        rw [rightScanIdx_unfold]
        simp [h2]
      rw [hr]
      refine ⟨⟨le_refl _, by omega⟩, ?_⟩
      by_cases hc : conc i = true
      · refine Or.inl ⟨hc, ?_⟩
        intro j hj1 hj2
        omega
      · refine Or.inr ⟨by omega, ?_⟩
        intro j hj1 hj2
        have : j = i := by omega
        rw [this]
        simpa using hc
  | succ d ih =>
      intro i hi
      by_cases hc : conc i = true
      · have hr : rightScanIdx conc n i = i := by
          rw [rightScanIdx_unfold]
          simp [hc]
        rw [hr]
        refine ⟨⟨le_refl _, by omega⟩, Or.inl ⟨hc, ?_⟩⟩
        intro j hj1 hj2
        omega
      · have hcf : conc i = false := by simpa using hc
        have h2 : decide (n ≤ i + 2) = false := by
          rw [decide_eq_false_iff_not]
          omega
        have hr : rightScanIdx conc n i = rightScanIdx conc n (i + 1) := by
          rw [rightScanIdx_unfold]
          simp [hcf, h2]
        rw [hr]
        obtain ⟨⟨hb1, hb2⟩, hdis⟩ := ih (i + 1) (by omega)
        refine ⟨⟨by omega, hb2⟩, ?_⟩
        have hext : ∀ j, i ≤ j → j = i ∨ i + 1 ≤ j := by omega
        rcases hdis with ⟨hcr, hmin⟩ | ⟨hn2, hnone⟩
        · refine Or.inl ⟨hcr, ?_⟩
          intro j hj1 hj2
          rcases hext j hj1 with hje | hja
          · rw [hje]; exact hcf
          · exact hmin j hja hj2
        · refine Or.inr ⟨hn2, ?_⟩
          intro j hj1 hj2
          rcases hext j hj1 with hje | hja
          · rw [hje]; exact hcf
          · exact hnone j hja hj2

/-- C5 counterexample: with the anchor at index `2` and the only concrete
reading at index `0`, the backward scan returns index `1` — neither the
nearest concrete index at or before the anchor (which is `0`), nor index `0`
as the claimed start-of-array fallback — because the loop's break condition
`leftSampleIndex <= 0` fires after the decrement, before index `0` is ever
examined. -/
theorem backward_scan_claim_false :
    leftScanIdx (fun i => decide (i = 0)) 2 = 1 ∧
    ¬ leftScanClaimOK (fun i => decide (i = 0)) 2 (leftScanIdx (fun i => decide (i = 0)) 2) := by
  refine ⟨by decide, ?_⟩
  unfold leftScanClaimOK
  decide

/-- C5 amended: the backward scan finds the nearest concrete index in
`[1, anchor]`, stopping at index `1` (not `0`) when none exists there — index
`0` is used only when the anchor itself is `0`, regardless of concreteness;
the forward scan finds the nearest concrete index in `[anchor, n-2]`,
stopping at `n-2` when none exists there — and when the anchor is already at
least `n-2` it stops at the anchor immediately. -/
theorem scan_characterization (conc : Nat → Bool) (n anchor : Nat) :
    (anchor = 0 → leftScanIdx conc anchor = 0) ∧
    (1 ≤ anchor →
      (1 ≤ leftScanIdx conc anchor ∧ leftScanIdx conc anchor ≤ anchor) ∧
      ((conc (leftScanIdx conc anchor) = true ∧
          ∀ j, leftScanIdx conc anchor < j → j ≤ anchor → conc j = false)
        ∨ (leftScanIdx conc anchor = 1 ∧ ∀ j, 1 ≤ j → j ≤ anchor → conc j = false))) ∧
    (n ≤ anchor + 2 → rightScanIdx conc n anchor = anchor) ∧
    (anchor + 2 < n →
      (anchor ≤ rightScanIdx conc n anchor ∧ rightScanIdx conc n anchor + 2 ≤ n) ∧
      ((conc (rightScanIdx conc n anchor) = true ∧
          ∀ j, anchor ≤ j → j < rightScanIdx conc n anchor → conc j = false)
        ∨ (rightScanIdx conc n anchor + 2 = n ∧
            ∀ j, anchor ≤ j → j + 2 ≤ n → conc j = false))) := by
  refine ⟨?_, leftScanIdx_char conc anchor, ?_, ?_⟩
  · intro h
    rw [h]
    rfl
  · intro h
    have h2 : decide (n ≤ anchor + 2) = true := by
      rw [decide_eq_true_eq]
      omega
    rw [rightScanIdx_unfold]
    simp [h2]
  · intro h
    exact rightScanIdx_char conc n (n - (anchor + 2)) anchor (by omega)

/-- C5 amendment witness: anchor `2`, sole concrete index `0`, five samples —
the backward scan lands on index `1`. -/
theorem scan_characterization_witness :
    (1 ≤ leftScanIdx (fun i => decide (i = 0)) 2 ∧
      leftScanIdx (fun i => decide (i = 0)) 2 ≤ 2) ∧
    ((decide (leftScanIdx (fun i => decide (i = 0)) 2 = 0) = true ∧
        ∀ j, leftScanIdx (fun i => decide (i = 0)) 2 < j → j ≤ 2 →
          decide (j = 0) = false)
      ∨ (leftScanIdx (fun i => decide (i = 0)) 2 = 1 ∧
          ∀ j, 1 ≤ j → j ≤ 2 → decide (j = 0) = false)) :=
  (scan_characterization (fun i => decide (i = 0)) 5 2).2.1 (by decide)

/-- C6: querying exactly at a stored timestamp that passes the density-bound
check returns, for each channel concrete at that timestamp, exactly the
stored value: both scans collapse onto the stored sample
(`leftTime == rightTime`) and the blend leaves the value unchanged. -/
theorem interp_at_stored_timestamp (samples : List (Int × SData)) (k : Nat) (c : Channel)
    (v : ℚ)
    (hsort : List.Pairwise (· < ·) (tsOf samples))
    (_hn : 3 ≤ samples.length)
    (hk : k < samples.length)
    (hv : (samples.getD k dfltSample).2 c = some v)
    (_hdens : densityReject samples ((tsOf samples).getD k 0) = false) :
    channelPick? samples ((tsOf samples).getD k 0) c =
      some ⟨(tsOf samples).getD k 0, (tsOf samples).getD k 0, v, v⟩ ∧
    interpValue samples ((tsOf samples).getD k 0) c = (v : ℝ) := by
  have hlen : (tsOf samples).length = samples.length := by simp [tsOf]
  have hanch : lowerBound (tsOf samples) ((tsOf samples).getD k 0) = k :=
    lowerBound_self (tsOf samples) hsort k (by omega)
  have hconc : ((samples.getD k dfltSample).2 c).isSome = true := by
    rw [hv]
    rfl
  have hleft :
      leftScanIdx (fun i => ((samples.getD i dfltSample).2 c).isSome) k = k :=
    leftScanIdx_of_conc _ k hconc
  have hright :
      rightScanIdx (fun i => ((samples.getD i dfltSample).2 c).isSome)
        samples.length k = k :=
    rightScanIdx_of_conc _ samples.length k hconc
  have hfst : (samples.getD k dfltSample).1 = (tsOf samples).getD k 0 :=
    (tsOf_getD samples k).symm
  have hpick : channelPick? samples ((tsOf samples).getD k 0) c =
      some ⟨(tsOf samples).getD k 0, (tsOf samples).getD k 0, v, v⟩ := by
    simp only [channelPick?, hanch, hleft, hright, hv, hfst]
  refine ⟨hpick, ?_⟩
  simp only [interpValue, hpick]
  ring

/-- C6 witness: the example device at stored timestamp `2000` returns the
stored temperature `22` unchanged. -/
theorem interp_at_stored_timestamp_witness :
    channelPick? fan1Samples ((tsOf fan1Samples).getD 2 0) Channel.temperature =
      some ⟨(tsOf fan1Samples).getD 2 0, (tsOf fan1Samples).getD 2 0, 22, 22⟩ ∧
    interpValue fan1Samples ((tsOf fan1Samples).getD 2 0) Channel.temperature =
      ((22 : ℚ) : ℝ) :=
  interp_at_stored_timestamp fan1Samples 2 Channel.temperature 22 (by decide) (by decide)
    (by decide) (by decide) (by decide)

/-- C7: whenever `InterpolateSample` produces a value for a channel, that
value lies between the chosen left and right concrete values (inclusive),
because the raised-cosine weight `0.5 * (1 - cos(π p))` lies in `[0, 1]` for
every real blend position `p`, whatever normalization produced it. -/
theorem interp_value_between (samples : List (Int × SData)) (q : Int) (c : Channel)
    (p : Pick) (h : channelPick? samples q c = some p) :
    min (p.lv : ℝ) (p.rv : ℝ) ≤ interpValue samples q c ∧
    interpValue samples q c ≤ max (p.lv : ℝ) (p.rv : ℝ) := by
  have hw0 : 0 ≤ blendWeight ((q : ℝ) / ((p.lt : ℝ) + (p.rt : ℝ))) := by
    unfold blendWeight
    have := Real.cos_le_one (Real.pi * ((q : ℝ) / ((p.lt : ℝ) + (p.rt : ℝ))))
    linarith
  have hw1 : blendWeight ((q : ℝ) / ((p.lt : ℝ) + (p.rt : ℝ))) ≤ 1 := by
    unfold blendWeight
    have := Real.neg_one_le_cos (Real.pi * ((q : ℝ) / ((p.lt : ℝ) + (p.rt : ℝ))))
    linarith
  simp only [interpValue, h]
  constructor
  · rcases le_total (p.lv : ℝ) (p.rv : ℝ) with hlr | hlr
    · rw [min_eq_left hlr]
      nlinarith [mul_nonneg hw0 (sub_nonneg.mpr hlr)]
    · rw [min_eq_right hlr]
      nlinarith [mul_nonneg (sub_nonneg.mpr hw1) (sub_nonneg.mpr hlr)]
  · rcases le_total (p.lv : ℝ) (p.rv : ℝ) with hlr | hlr
    · rw [max_eq_right hlr]
      nlinarith [mul_nonneg (sub_nonneg.mpr hw1) (sub_nonneg.mpr hlr)]
    · rw [max_eq_left hlr]
      nlinarith [mul_nonneg hw0 (sub_nonneg.mpr hlr)]

/-- C7 witness at a concrete pick of the example device. -/
theorem interp_value_between_witness :
    min ((22 : ℚ) : ℝ) ((22 : ℚ) : ℝ) ≤ interpValue fan1Samples 1500 Channel.temperature ∧
    interpValue fan1Samples 1500 Channel.temperature ≤ max ((22 : ℚ) : ℝ) ((22 : ℚ) : ℝ) :=
  interp_value_between fan1Samples 1500 Channel.temperature ⟨2000, 2000, 22, 22⟩ (by decide)

theorem tabulateLoop_stuck (dev : Option (List (Int × SData))) (fromT toT count timestamp : Int)
    (hlt : timestamp < toT) (hok : interpOutcome dev timestamp = .ok) (hc : ¬count = 0) :
    ∀ (fuel : Nat) (acc : List Int),
      tabulateLoop dev fromT toT count timestamp acc fuel = .outOfFuel := by
  intro fuel
  induction fuel with
  | zero => intro acc; rfl
  | succ f ih =>
      intro acc
      show (if timestamp < toT then
          match interpOutcome dev timestamp with
          | .ok =>
              if count = 0 then HandleResult.panicDivZero
              else tabulateLoop dev fromT toT count timestamp (acc ++ [timestamp]) f
          | .panic => HandleResult.panicNil
          | _ => HandleResult.serverError
        else HandleResult.ok acc) = .outOfFuel
      rw [if_pos hlt, hok]
      show (if count = 0 then HandleResult.panicDivZero
        else tabulateLoop dev fromT toT count timestamp (acc ++ [timestamp]) f) = .outOfFuel
      rw [if_neg hc]
      exact ih _

/-- C2 (code bug): at the spec's example request — device with samples at
`0..4000`, `from = 1000`, `to = 4000`, `count = 3` — the tabulation loop
never terminates: `timestamp.Add(...)`'s result is discarded, the loop
variable never advances past `1000`, and for every iteration bound and every
accumulated entry list the model still reports `outOfFuel`, instead of the
claimed `count` iterations advancing by `step`. -/
theorem tabulation_loop_never_terminates :
    ∀ (fuel : Nat) (acc : List Int),
      tabulateLoop (some fan1Samples) 1000 4000 3 1000 acc fuel = .outOfFuel :=
  fun fuel acc =>
    tabulateLoop_stuck (some fan1Samples) 1000 4000 3 1000 (by decide) (by decide)
      (by decide) fuel acc

/-- C1 (code bug): under the spec's corrected semantics the example request
(`from = 1000`, `to = 4000`, `count = 3`) tabulates exactly the three
timestamps `1000, 2000, 3000`, every interpolation succeeding; the code's
handler on the same input, its loop never advancing its timestamp, runs out
of any iteration bound without ever producing entries. -/
theorem corrected_tabulation_three_points :
    tabulateSpec (some fan1Samples) 1000 4000 3 = some [1000, 2000, 3000] ∧
    ∀ fuel : Nat, handleTabulated (some fan1Samples) 1000 4000 3 fuel = .outOfFuel := by
  refine ⟨by decide, ?_⟩
  intro fuel
  show tabulateLoop (some fan1Samples) 1000 4000 3 1000 [] fuel = .outOfFuel
  exact tabulateLoop_stuck (some fan1Samples) 1000 4000 3 1000 (by decide) (by decide)
    (by decide) fuel []

/-- C10 counterexample: `count = 0`, `from < to`, the device exists — yet no
division by zero happens, because the first interpolation (at `from = 100`,
outside the density bounds) fails and the handler returns 500 before the
loop's post statement ever computes the step. -/
theorem count_zero_no_panic_when_interp_fails :
    handleTabulated (some fan1Samples) 100 4000 0 1 = .serverError ∧
    HandleResult.serverError ≠ HandleResult.panicDivZero :=
  ⟨by decide, by decide⟩

/-- C10 amended: if `count = 0`, `from < to`, the device exists and the
interpolation at `from` succeeds, then the first evaluation of the loop's
post statement divides `(to - from).Nanoseconds()` by zero and panics; no
validation of `count >= 1` happens before that division. -/
theorem count_zero_division_panics (samples : List (Int × SData)) (fromT toT : Int)
    (fuel : Nat) (hlt : fromT < toT)
    (hok : interpOutcome (some samples) fromT = .ok) :
    handleTabulated (some samples) fromT toT 0 (fuel + 1) = .panicDivZero := by
  show tabulateLoop (some samples) fromT toT 0 fromT [] (fuel + 1) = .panicDivZero
  show (if fromT < toT then
      match interpOutcome (some samples) fromT with
      | .ok =>
          if (0 : Int) = 0 then HandleResult.panicDivZero
          else tabulateLoop (some samples) fromT toT 0 fromT ([] ++ [fromT]) fuel
      | .panic => HandleResult.panicNil
      | _ => HandleResult.serverError
    else HandleResult.ok []) = .panicDivZero
  rw [if_pos hlt, hok]
  simp

/-- C10 amendment witness: the example device with `from = 1000` (in
density), `to = 4000`, `count = 0` panics with a division by zero. -/
theorem count_zero_division_panics_witness :
    handleTabulated (some fan1Samples) 1000 4000 0 1 = .panicDivZero :=
  count_zero_division_panics fan1Samples 1000 4000 0 (by decide) (by decide)

theorem applyRow_comm (st : String → Int → Option SData) (r1 r2 : Row)
    (h : ¬(r1.dev = r2.dev ∧ r1.t = r2.t ∧ r1.c = r2.c)) :
    applyRow (applyRow st r1) r2 = applyRow (applyRow st r2) r1 := by
  obtain ⟨dev1, t1, c1, v1⟩ := r1
  obtain ⟨dev2, t2, c2, v2⟩ := r2
  funext d t
  by_cases h1 : d = dev1 ∧ t = t1 <;> by_cases h2 : d = dev2 ∧ t = t2
  · obtain ⟨rfl, rfl⟩ := h1
    obtain ⟨rfl, rfl⟩ := h2
    have hcc : c1 ≠ c2 := fun hc => h ⟨rfl, rfl, hc⟩
    simp only [applyRow, and_self, if_true, Option.getD_some]
    congr 1
    funext c
    by_cases hc1 : c = c1 <;> by_cases hc2 : c = c2
    · exact absurd (hc1.symm.trans hc2) hcc
    · simp [hc1, hc2, hcc, Ne.symm hcc]
    · simp [hc1, hc2, hcc, Ne.symm hcc]
    · simp [hc1, hc2, hcc, Ne.symm hcc]
  · obtain ⟨rfl, rfl⟩ := h1
    simp only [applyRow, and_self, if_true, if_neg h2, Option.getD_some]
  · obtain ⟨rfl, rfl⟩ := h2
    simp only [applyRow, and_self, if_true, if_neg h1, Option.getD_some]
  · simp only [applyRow, if_neg h1, if_neg h2]

/-- C8: ingestion writes to distinct device+timestamp+channel triplets
commute, and rows for two different channels at the same device and
timestamp (as arriving from two different channel files) merge into exactly
one sample holding both channels, identically in either processing order. -/
theorem ingestion_commutes_and_merges :
    (∀ (st : String → Int → Option SData) (r1 r2 : Row),
        ¬(r1.dev = r2.dev ∧ r1.t = r2.t ∧ r1.c = r2.c) →
        applyRow (applyRow st r1) r2 = applyRow (applyRow st r2) r1) ∧
    (∀ (d : String) (t : Int) (c1 c2 : Channel) (v1 v2 : ℚ), c1 ≠ c2 →
        ∃ s : SData,
          populateRows [⟨d, t, c1, v1⟩, ⟨d, t, c2, v2⟩] d t = some s ∧
          s c1 = some v1 ∧ s c2 = some v2 ∧
          (∀ t2, t2 ≠ t → populateRows [⟨d, t, c1, v1⟩, ⟨d, t, c2, v2⟩] d t2 = none) ∧
          populateRows [⟨d, t, c1, v1⟩, ⟨d, t, c2, v2⟩] =
            populateRows [⟨d, t, c2, v2⟩, ⟨d, t, c1, v1⟩]) := by
  refine ⟨applyRow_comm, ?_⟩
  intro d t c1 c2 v1 v2 hcc
  refine ⟨fun c => if c = c2 then some v2 else if c = c1 then some v1 else none, ?_, ?_, ?_, ?_, ?_⟩
  · simp only [populateRows, List.foldl, applyRow, emptyIngStore, and_self, if_true,
      Option.getD_some, Option.getD_none]
  · simp [hcc]
  · simp
  · intro t2 ht2
    have hne : ¬(d = d ∧ t2 = t) := fun hcon => ht2 hcon.2
    show applyRow (applyRow emptyIngStore ⟨d, t, c1, v1⟩) ⟨d, t, c2, v2⟩ d t2 = none
    have hne' : ¬(True ∧ t2 = t) := fun hcon => ht2 hcon.2
    simp only [applyRow]
    rw [if_neg hne', if_neg hne']
    rfl
  · exact applyRow_comm emptyIngStore ⟨d, t, c1, v1⟩ ⟨d, t, c2, v2⟩
      (fun hcon => hcc hcon.2.2)

/-- C8 witness: temperature and peak-velocity-x rows at the same device and
timestamp, from two different files, merge into one two-channel sample in
either order. -/
theorem ingestion_commutes_and_merges_witness :
    ∃ s : SData,
      populateRows [⟨"fan1", 1000, Channel.temperature, 3⟩,
          ⟨"fan1", 1000, Channel.peakVelocityX, 4⟩] "fan1" 1000 = some s ∧
      s Channel.temperature = some 3 ∧ s Channel.peakVelocityX = some 4 ∧
      (∀ t2, t2 ≠ 1000 → populateRows [⟨"fan1", 1000, Channel.temperature, 3⟩,
          ⟨"fan1", 1000, Channel.peakVelocityX, 4⟩] "fan1" t2 = none) ∧
      populateRows [⟨"fan1", 1000, Channel.temperature, 3⟩,
          ⟨"fan1", 1000, Channel.peakVelocityX, 4⟩] =
        populateRows [⟨"fan1", 1000, Channel.peakVelocityX, 4⟩,
          ⟨"fan1", 1000, Channel.temperature, 3⟩] :=
  ingestion_commutes_and_merges.2 "fan1" 1000 Channel.temperature Channel.peakVelocityX 3 4
    (by decide)

end KCF
